import Mathlib

/-!
Verification development for the Pyriod signal-solution engine
(src/Pyriod/Pyriod.py).

The Python source is shallowly embedded below.  Conventions:

* Python floats are modelled by `ℚ` wherever the code only does field
  arithmetic on parameters (frequencies, amplitudes, phases, grids); flux
  series, which pass through `np.sin`, are modelled by `List ℝ`.
* The pandas DataFrame `self.values` (string-labelled rows, duplicate labels
  allowed, insertion order preserved) is modelled by `List (String × SignalEntry)`.
  The unused `combo` column and the qgrid display mirror (a unit-conversion
  round trip that is the identity in exact arithmetic) are not represented.
* Exceptions are modelled by `Option PyErr` results; Python mutates `self`
  in place, so a raising operation returns the state as mutated so far.
* The external Lomb-Scargle periodogram (`lightkurve.to_periodogram`) is an
  opaque deterministic function `P : List ℚ → List ℝ → List ℚ → List ℚ`
  taking a series' times, fluxes and the frequency grid; it is passed as a
  parameter and universally quantified in the theorems.
* The nonlinear solver (`lmfit`) is abstracted by a `FitOutcome` oracle
  giving, for each varying parameter name, the value and standard error the
  solver returned, plus its convergence flag.  Everything the code itself
  computes around the solver (parameter construction, fixing, the expression
  links for combination frequencies, the write-back) is embedded faithfully.
* Matplotlib/ipywidgets/qgrid/log wiring is UI and is not modelled.
-/

set_option maxRecDepth 8000

/- Core marks rational arithmetic irreducible, which blocks `decide` on the
concrete scenario evaluations below; restore the default reducibility for
this file so the kernel can evaluate them. -/
set_option allowUnsafeReducibility true
attribute [local semireducible] Rat.add Rat.mul Rat.sub Rat.div Rat.inv Rat.neg
  Rat.floor Rat.ceil

/-- Definition of the basic model fit to the time series
(source: `sin`, Pyriod.py lines 99-101): `amp*np.sin(2.*np.pi*(freq*x+phase))`. -/
noncomputable def sin (x freq amp phase : ℝ) : ℝ :=
  amp * Real.sin (2 * Real.pi * (freq * x + phase))

/-- Python exceptions that the embedded code paths can raise. -/
inductive PyErr where
  | nameError
  | typeError
  | keyError
  | zeroDivisionError
  deriving DecidableEq

/-- One row of the `self.values` DataFrame (columns of Pyriod.py lines 676-681;
the never-read `combo` column is omitted, error columns start out NaN,
modelled as `none`).  `incl` is the source's `include` column. -/
structure SignalEntry where
  freq : ℚ
  fixfreq : Bool
  amp : ℚ
  fixamp : Bool
  phase : ℚ
  fixphase : Bool
  incl : Bool
  freqerr : Option ℚ := none
  amperr : Option ℚ := none
  phaseerr : Option ℚ := none
  deriving DecidableEq

/-- A lightkurve LightCurve: paired time and flux arrays. -/
structure LC where
  time : List ℚ
  flux : List ℝ

/-- The mutable state of a `Pyriod` object (the fields of `__init__` that the
engine reads or writes; figure/widget attributes are UI and omitted). -/
structure PyriodState where
  lc_orig : LC
  lc_model_sampled : LC
  lc_model_observed : LC
  lc_resid : LC
  tshift : ℚ
  freq_conversion : ℚ
  amp_conversion : ℚ
  oversample_factor : ℕ
  fres : ℚ
  nyq : ℚ
  freqs : List ℚ
  per_orig : List ℚ
  per_model : List ℚ
  per_resid : List ℚ
  values : List (String × SignalEntry)

/-! ### Numeric helpers (numpy counterparts) -/

/-- `np.mean` of a rational list. -/
def meanQ (l : List ℚ) : ℚ := l.sum / l.length

/-- `np.mean` of a real list. -/
noncomputable def meanR (l : List ℝ) : ℝ := l.sum / l.length

/-- `np.diff`: consecutive differences `a[i+1] - a[i]`. -/
def diffsQ (l : List ℚ) : List ℚ := List.zipWith (fun a b => a - b) l.tail l

/-- Insert into a sorted list (ascending); used to model numpy's sort. -/
def insertSorted (x : ℚ) : List ℚ → List ℚ
  | [] => [x]
  | y :: ys => if x ≤ y then x :: y :: ys else y :: insertSorted x ys

/-- Sort ascending (numpy sorts before taking the median). -/
def sortQ (l : List ℚ) : List ℚ := l.foldr insertSorted []

/-- `np.median`: middle element of the sorted list, or the mean of the two
middle elements for even length. -/
def medianQ (l : List ℚ) : ℚ :=
  let s := sortQ l
  if l.length % 2 = 1 then s.getD (l.length / 2) 0
  else (s.getD (l.length / 2 - 1) 0 + s.getD (l.length / 2) 0) / 2

/-- `np.arange(start, stop, step)`: `start + i*step` for `0 ≤ i < ⌈(stop-start)/step⌉`. -/
def arangeQ (start stop step : ℚ) : List ℚ :=
  (List.range (Int.toNat ⌈(stop - start) / step⌉)).map
    (fun i : ℕ => start + (i : ℚ) * step)

/-- `np.min`. -/
def minQ (l : List ℚ) : ℚ := (l.min?).getD 0

/-- `np.max`. -/
def maxQ (l : List ℚ) : ℚ := (l.max?).getD 0

/-- `scipy.interpolate.interp1d(xs, ys)` evaluated at `x`: linear
interpolation on the segment containing `x` (out-of-range queries, which
scipy rejects, return 0 here; no modelled code path exercises them). -/
def interpLin : List ℚ → List ℚ → ℚ → ℚ
  | x0 :: x1 :: xs, y0 :: y1 :: ys, x =>
    if x ≤ x1 then y0 + (y1 - y0) * (x - x0) / (x1 - x0)
    else interpLin (x1 :: xs) (y1 :: ys) x
  | _, _, _ => 0

/-- Modelled from the spec: the aliasing utility `foldToNyquist`
(`pyquist.subfreq`, imported at Pyriod.py line 94 but absent from src/):
a frequency already in `[0, nyquist]` is returned unchanged, otherwise it is
reflected across 0 and the Nyquist boundary into that band. -/
def subfreq (freq nyq : ℚ) : ℚ :=
  if 0 < nyq then
    let r := freq - 2 * nyq * ⌊freq / (2 * nyq)⌋
    if r ≤ nyq then r else 2 * nyq - r
  else freq

/-! ### Frequency grid construction (Pyriod.py lines 158, 195-200) -/

/-- Frequency resolution `self.fres = 1./(time[-1]-time[0])` (line 195). -/
def fresOf (time : List ℚ) : ℚ := 1 / (time.getLastD 0 - time.headD 0)

/-- Median sampling interval `dt = np.median(np.diff(time))` (line 158). -/
def dtOf (time : List ℚ) : ℚ := medianQ (diffsQ time)

/-- Approximate Nyquist `self.nyq = 1./(2.*dt*self.freq_conversion)` (line 198). -/
def nyqOf (time : List ℚ) (fc : ℚ) : ℚ := 1 / (2 * dtOf time * fc)

/-- Frequency grid
`self.freqs = np.arange(0, self.nyq+self.fres/oversample_factor, self.fres/oversample_factor)`
(line 200). -/
def freqsOf (time : List ℚ) (fc : ℚ) (osf : ℕ) : List ℚ :=
  arangeQ 0 (nyqOf time fc + fresOf time / osf) (fresOf time / osf)

/-- The part of `Pyriod.__init__` that the engine depends on: time-shift,
initial (mean-valued) model series, residuals, frequency grid, and the three
periodograms, computed from the original series.  `P` is the opaque
periodogram estimator; `fc`/`ac` are the frequency/amplitude unit conversion
factors; `osf` the oversample factor. -/
noncomputable def pyriodInit (P : List ℚ → List ℝ → List ℚ → List ℚ)
    (time : List ℚ) (flux : List ℝ) (fc ac : ℚ) (osf : ℕ) : PyriodState :=
  let dt := dtOf time
  let time_samples := arangeQ (minQ time) (maxQ time + dt) dt
  let grid := freqsOf time fc osf
  let observedFlux := time.map (fun _ => meanR flux)
  {
    lc_orig := ⟨time, flux⟩
    lc_model_sampled := ⟨time_samples, time_samples.map (fun _ => meanR flux)⟩
    lc_model_observed := ⟨time, observedFlux⟩
    lc_resid := ⟨time, List.zipWith (fun a b => a - b) flux observedFlux⟩
    tshift := -meanQ time
    freq_conversion := fc
    amp_conversion := ac
    oversample_factor := osf
    fres := fresOf time
    nyq := nyqOf time fc
    freqs := grid
    per_orig := (P time flux grid).map (fun p => p * ac)
    per_model := (P time observedFlux grid).map (fun p => p * ac)
    per_resid := (P time (List.zipWith (fun a b => a - b) flux observedFlux) grid).map
      (fun p => p * ac)
    values := []
  }

/-! ### Signal table operations -/

/-- `add_signal` (Pyriod.py lines 483-504): defaults `amp=1.`, `phase=0.5`,
auto index `"f{len(self.values)}"`; the amplitude is stored divided by
`self.amp_conversion`; the row is appended (pandas `append` allows duplicate
labels).  The UI refresh calls (`_update_freq_dropdown`,
`_update_signal_markers`, qgrid sync, log) do not touch engine state. -/
def add_signal (st : PyriodState) (freq : ℚ) (amp phase : Option ℚ)
    (fixfreq fixamp fixphase : Bool) (incl : Bool) (index : Option String) :
    PyriodState :=
  let ampv := amp.getD 1
  let phasev := phase.getD (1/2)
  let idx := index.getD ("f" ++ toString st.values.length)
  let entry : SignalEntry :=
    { freq := freq, fixfreq := fixfreq, amp := ampv / st.amp_conversion,
      fixamp := fixamp, phase := phasev, fixphase := fixphase, incl := incl }
  { st with values := st.values ++ [(idx, entry)] }

/-- `delete_rows` (Pyriod.py lines 683-685): `self.values.drop(indices)`.
pandas `drop` raises `KeyError` (before assignment, hence without mutating)
if some label is absent, and otherwise removes every row whose label is in
`indices`. -/
def delete_rows (st : PyriodState) (indices : List String) :
    PyriodState × Option PyErr :=
  if indices.all (fun i => st.values.any (fun kv => kv.1 == i)) then
    let kept := st.values.filter (fun kv => !(indices.any (fun i => kv.1 == i)))
    ({ st with values := kept }, none)
  else (st, some .keyError)

/-! ### Combination expressions (Pyriod.py lines 508-523)

`add_combination` splits the expression on the operator characters
(`re.split('\+|\-|\*|\/', combostr)`), collects the set of parts that are
index labels, replaces each such key — by whole-string `str.replace`, so a
key occurring as a substring inside another token is spliced too — with
`str(freq)`, and hands the resulting string to Python's `eval`.  The
substitution is embedded as an actual character-level replace; the `eval`
of the substituted string is embedded on the modelled fragment: binary
`+ - * /` chains (Python precedence, left associative) over parts that are
decimal numerals or identifiers, where the builtin constants `True`/`False`
evaluate to 1/0 and any other identifier raises `NameError`.  Python's set
iteration order for the keys is modelled as first-occurrence order (the
orders only differ when one replacement rewrites another key, which no
theorem below depends on); unary signs, parentheses and exponent literals
are outside the modelled fragment and no theorem below depends on them. -/

/-- The four operator characters of `re.split('\+|\-|\*|\/', ...)`. -/
def isOpChar (c : Char) : Bool := c = '+' || c = '-' || c = '*' || c = '/'

/-- Split a character list at operator characters: returns the first part and
the list of (operator, following part) pairs. -/
def splitTok : List Char → List Char × List (Char × List Char)
  | [] => ([], [])
  | c :: cs =>
    let r := splitTok cs
    if isOpChar c then ([], (c, r.1) :: r.2)
    else (c :: r.1, r.2)

/-- The list of parts produced by `re.split` (operators dropped). -/
def partsOf (s : List Char) : List (List Char) :=
  (splitTok s).1 :: (splitTok s).2.map (fun p => p.2)

/-- Does this part lex as a Python decimal numeral (digits with at most one
decimal point)?  Exponent/hex forms are outside the modelled fragment. -/
def isNumeral (s : List Char) : Bool :=
  s.any (fun c => c.isDigit) && s.all (fun c => c.isDigit || c = '.') &&
    s.count '.' ≤ 1

/-- Value of a decimal numeral part. -/
def parseNumeral (s : List Char) : ℚ :=
  let digits := fun (cs : List Char) =>
    cs.foldl (fun acc c => 10 * acc + (c.toNat - Char.toNat '0')) 0
  let intPart := s.takeWhile (fun c => c ≠ '.')
  let fracPart := (s.dropWhile (fun c => c ≠ '.')).drop 1
  (digits intPart : ℚ) + (digits fracPart : ℚ) / (10 : ℚ) ^ fracPart.length

/-- Frequency of the first table row labelled `k` (pandas `.loc[k,'freq']`). -/
def lookupFreq (vals : List (String × SignalEntry)) (k : String) : Option ℚ :=
  (vals.lookup k).map (fun e => e.freq)

/-- Fractional decimal digits of `r/d` (most significant first), up to the
fuel bound, stopping when the remainder vanishes. -/
def fracDigits : ℕ → ℕ → ℕ → List Char
  | 0, _, _ => []
  | _ + 1, 0, _ => []
  | fuel + 1, r, d =>
    Char.ofNat (Char.toNat '0' + r * 10 / d) :: fracDigits fuel (r * 10 % d) d

/-- Python's `str()` of a float frequency, for the replacement text of
line 518: sign, integer digits, a decimal point, and the fractional digits
(at least one, e.g. `str(3.0) = "3.0"`).  Rationals without a terminating
decimal expansion are truncated at 17 digits, and very large/small values
are not switched to scientific notation — such frequencies are not exact
floats in the first place and no theorem depends on them. -/
def strOfFreq (q : ℚ) : List Char :=
  let m := q.num.natAbs
  let ip := m / q.den
  let r := m % q.den
  let frac := if r = 0 then [('0')] else fracDigits 17 r q.den
  (if q.num < 0 then [('-')] else []) ++ (toString ip).toList ++ [('.')] ++ frac

/-- Scanner for Python's `str.replace`: at skip count 0, a pattern match
emits the replacement and skips the matched characters; otherwise the
character is kept.  Replaces all non-overlapping occurrences left to right. -/
def raGo (pat rep : List Char) : ℕ → List Char → List Char
  | _ + 1, [] => []
  | k + 1, _ :: cs => raGo pat rep k cs
  | 0, [] => []
  | 0, c :: cs =>
    if pat.isPrefixOf (c :: cs) then rep ++ raGo pat rep (pat.length - 1) cs
    else c :: raGo pat rep 0 cs

/-- Python `s.replace(pat, rep)` (for the nonempty patterns that arise as
table keys; the empty pattern is returned unchanged). -/
def replaceAll (pat rep s : List Char) : List Char :=
  if pat = [] then s else raGo pat rep 0 s

/-- First-occurrence deduplication, modelling the `set(...)` of line 515. -/
def dedupKeys : List (List Char) → List (List Char)
  | [] => []
  | k :: ks => k :: (dedupKeys ks).filter (fun x => x ≠ k)

/-- `keys = set([part for part in parts if part in self.values.index])`
(line 515), in first-occurrence order. -/
def keysOf (vals : List (String × SignalEntry)) (s : List Char) :
    List (List Char) :=
  dedupKeys ((partsOf s).filter (fun p => (lookupFreq vals (String.mk p)).isSome))

/-- The substituted expression of lines 516-518: each known key replaced,
over the whole string, by `str()` of its current frequency (`.loc` reads the
first row with that label). -/
def substExpr (vals : List (String × SignalEntry)) (s : List Char) :
    List Char :=
  (keysOf vals s).foldl
    (fun e k => replaceAll k (strOfFreq ((lookupFreq vals (String.mk k)).getD 0)) e)
    s

/-- Resolve one part of the substituted string the way `eval` does: a
decimal numeral, or one of the numeric builtins `True`/`False`; any other
name raises `NameError`. -/
def resolveNum (p : List Char) : Except PyErr ℚ :=
  if String.mk p = ("True") then .ok 1
  else if String.mk p = ("False") then .ok 0
  else if isNumeral p then .ok (parseNumeral p)
  else .error .nameError

/-- Resolve all (operator, part) pairs left to right, stopping at the first
failure, as `eval` does. -/
def resolveAll (resolve : List Char → Except PyErr ℚ) :
    List (Char × List Char) → Except PyErr (List (Char × ℚ))
  | [] => .ok []
  | (c, p) :: rest =>
    match resolve p with
    | .error e => .error e
    | .ok v =>
      match resolveAll resolve rest with
      | .error e => .error e
      | .ok vs => .ok ((c, v) :: vs)

/-- Evaluate a resolved operator chain with Python precedence (`*`,`/` bind
before `+`,`-`, all left associative); division by zero raises. -/
def evalLoop : ℚ → ℚ → List (Char × ℚ) → Except PyErr ℚ
  | acc, cur, [] => .ok (acc + cur)
  | acc, cur, (c, v) :: rest =>
    if c = '+' then evalLoop (acc + cur) v rest
    else if c = '-' then evalLoop (acc + cur) (-v) rest
    else if c = '*' then evalLoop acc (cur * v) rest
    else if v = 0 then .error .zeroDivisionError
    else evalLoop acc (cur / v) rest

/-- Evaluate an expression string with the given part resolver. -/
def evalWith (resolve : List Char → Except PyErr ℚ) (s : List Char) :
    Except PyErr ℚ :=
  match resolve (splitTok s).1 with
  | .error e => .error e
  | .ok v0 =>
    match resolveAll resolve (splitTok s).2 with
    | .error e => .error e
    | .ok rs => evalLoop 0 v0 rs

/-- Lines 514-519 of `add_combination`: whole-string substitution of every
known key by its current frequency, then `eval` of the result. -/
def evalExpr (vals : List (String × SignalEntry)) (s : List Char) :
    Except PyErr ℚ :=
  evalWith resolveNum (substExpr vals s)

/-- `add_combination` (Pyriod.py lines 508-523): strip spaces, evaluate the
expression over the current table, infer a missing amplitude from the
original periodogram at the alias-folded frequency (`self.interpls`, built
once at init from `self.freqs` and `self.per_orig`), then call
`self.add_signal(freqval, amp, index=combostr)`.  The `phase`, `fixfreq`,
`fixamp`, `fixphase` and `index` arguments are accepted but never forwarded. -/
def add_combination (st : PyriodState) (combostr : String) (amp phase : Option ℚ)
    (fixfreq fixamp fixphase : Bool) (index : Option String) :
    PyriodState × Option PyErr :=
  match evalExpr st.values (combostr.toList.filter (fun c => c ≠ ' ')) with
  | .error e => (st, some e)
  | .ok freqval =>
    let ampv := match amp with
      | none => interpLin st.freqs st.per_orig (subfreq freqval st.nyq)
      | some a => a
    (add_signal st freqval (some ampv) none false false false true
      (some (String.mk (combostr.toList.filter (fun c => c ≠ ' ')))), none)

/-! ### Derived series and periodogram recomputation -/

/-- The model flux evaluated at times `ts`: start from
`np.zeros(...) + np.mean(self.lc_orig.flux)` and add each table row's
sinusoid `sin(t, freq*self.freq_conversion, amp, phase)` —
`_update_lcs`, Pyriod.py lines 640-652 (the loop runs over the whole index,
not only included rows). -/
noncomputable def modelFlux (st : PyriodState) (ts : List ℚ) : List ℝ :=
  st.values.foldl
    (fun fl kv => List.zipWith
      (fun f t => f + sin t ((kv.2.freq * st.freq_conversion : ℚ) : ℝ)
        ((kv.2.amp : ℚ) : ℝ) ((kv.2.phase : ℚ) : ℝ))
      fl (ts.map (fun q => (q : ℝ))))
    (ts.map (fun _ => meanR st.lc_orig.flux))

/-- `_update_lcs` (Pyriod.py lines 640-653): regenerate the sampled and
observed model series and the residual series. -/
noncomputable def updateLcs (st : PyriodState) : PyriodState :=
  let observed : LC := ⟨st.lc_orig.time, modelFlux st st.lc_orig.time⟩
  { st with
    lc_model_sampled := ⟨st.lc_model_sampled.time,
      modelFlux st st.lc_model_sampled.time⟩
    lc_model_observed := observed
    lc_resid := ⟨st.lc_orig.time,
      List.zipWith (fun a b => a - b) st.lc_orig.flux observed.flux⟩ }

/-- `_update_pers` (Pyriod.py lines 792-799): recompute the model and
residual periodograms on `self.freqs`, scaled by `self.amp_conversion`. -/
def updatePers (P : List ℚ → List ℝ → List ℚ → List ℚ) (st : PyriodState) :
    PyriodState :=
  { st with
    per_model := (P st.lc_model_observed.time st.lc_model_observed.flux
      st.freqs).map (fun p => p * st.amp_conversion)
    per_resid := (P st.lc_resid.time st.lc_resid.flux st.freqs).map
      (fun p => p * st.amp_conversion) }

/-- A manual edit of one `freq` cell in the signals table
(`_qgrid_changed_manually` → `_update_values_from_qgrid`,
Pyriod.py lines 655-674 and 632-638): the table is re-absorbed from the grid
(in exact arithmetic the unit round trip is the identity, so only the edited
cell changes) and the full recompute chain runs. -/
noncomputable def qgrid_edit_freq (P : List ℚ → List ℝ → List ℚ → List ℚ)
    (st : PyriodState) (key : String) (v : ℚ) : PyriodState :=
  let newvals := st.values.map
    (fun kv => if kv.1 = key then (kv.1, { kv.2 with freq := v }) else kv)
  updatePers P (updateLcs { st with values := newvals })

/-! ### The two-phase fit (Pyriod.py lines 526-618)

`fit_model` builds an lmfit parameter set over the included rows: an
independent row `f<N>` contributes free parameters `f<N>freq`, `f<N>amp`,
`f<N>phase`; a combination row contributes `c<i>amp`, `c<i>phase` and a
frequency parameter constrained by the expression obtained from its key with
every known index label `key` replaced by `key + "freq"` (line 565).  Phase 1
fits with every frequency fixed; phase 2 re-seeds amplitudes/phases from the
phase-1 result and releases each independent frequency unless the user fixed
it.  Because phase-2 re-seeding only changes starting values, the returned
parameter set is determined by the table and the phase-2 solver outcome: a
varying parameter carries the solver's value, a fixed one its set value, and
a constrained one its expression evaluated over the final values.  The
solver outcome is abstracted by `FitOutcome`; nothing in the source ever
consults the solver's convergence flag. -/

/-- What the nonlinear solver returned: a value and standard error for each
parameter name, and whether it reported convergence. -/
structure FitOutcome where
  vals : String → ℚ
  stderr : String → Option ℚ
  success : Bool

/-- `isindep = lambda key: key[1:].isdigit()` (line 540). -/
def isindep (k : String) : Bool :=
  let t := k.toList.drop 1
  !t.isEmpty && t.all Char.isDigit

/-- `self.values.index[self.values.include]`: keys of included rows in table
order. -/
def includedKeys (st : PyriodState) : List String :=
  (st.values.filter (fun kv => kv.2.incl)).map (fun kv => kv.1)

/-- The `prefixmap` of `fit_model`: independent keys map to themselves,
combination keys to `"c0"`, `"c1"`, ... in table order (lines 543-570). -/
def mkPrefixmap : List String → ℕ → List (String × String)
  | [], _ => []
  | k :: ks, n =>
    if isindep k then (k, k) :: mkPrefixmap ks n
    else (k, "c" ++ toString n) :: mkPrefixmap ks (n + 1)

/-- Look up a key's solver-parameter name in the prefixmap. -/
def pmOf (st : PyriodState) (k : String) : String :=
  ((mkPrefixmap (includedKeys st) 0).lookup k).getD k

/-- Final (phase-2) value of an independent row's frequency parameter:
`self.freq_conversion*freq` if the user fixed it (`vary=False` throughout),
else whatever the solver returned for `<key>freq`. -/
def freqParamVal (st : PyriodState) (o2 : FitOutcome) (k : String) : ℚ :=
  match st.values.lookup k with
  | none => 0
  | some e =>
    if e.fixfreq then st.freq_conversion * e.freq else o2.vals (k ++ "freq")

/-- The substituted linked-frequency expression of lines 561-565: each known
key of the combination key string rewritten, by whole-string `str.replace`,
to `<key>freq`.  (Keys holding operator characters are never parts of the
split, so only operator-free keys are rewritten.) -/
def substExprFit (vals : List (String × SignalEntry)) (s : List Char) :
    List Char :=
  (keysOf vals s).foldl
    (fun e k => replaceAll k (k ++ ("freq").toList) e) s

/-- Resolve one part of the substituted fit expression the way lmfit's
evaluator does: `<key>freq` names the frequency parameter of an included
independent row (a non-included or non-independent row has no parameter of
that name — combinations are registered under `c<i>` prefixes — so the name
is undefined and raises); otherwise the part is a numeral or a builtin
constant, anything else an undefined name. -/
def resolveFitName (st : PyriodState) (o2 : FitOutcome) (q : List Char) :
    Except PyErr ℚ :=
  match (includedKeys st).find?
      (fun k => isindep k && (k.toList ++ ("freq").toList == q)) with
  | some k => .ok (freqParamVal st o2 k)
  | none =>
    if String.mk q = ("True") then .ok 1
    else if String.mk q = ("False") then .ok 0
    else if isNumeral q then .ok (parseNumeral q)
    else .error .nameError

/-- A combination's linked frequency parameter at fit time: substitution of
line 565 followed by evaluation over the final frequency parameters. -/
def evalExprFit (st : PyriodState) (o2 : FitOutcome) (s : List Char) :
    Except PyErr ℚ :=
  evalWith (resolveFitName st o2) (substExprFit st.values s)

/-- Build the final fitted parameter list `(name, value, stderr)` for the
included rows, in table order.  A combination frequency is its expression
evaluated over the final frequency parameters. -/
def mkParams (st : PyriodState) (o2 : FitOutcome) :
    List String → Except PyErr (List (String × ℚ × Option ℚ))
  | [] => .ok []
  | k :: ks =>
    match st.values.lookup k with
    | none => mkParams st o2 ks
    | some e =>
      let nm := pmOf st k
      let fv : Except PyErr ℚ :=
        if isindep k then .ok (freqParamVal st o2 k)
        else evalExprFit st o2 k.toList
      match fv with
      | .error er => .error er
      | .ok f =>
        match mkParams st o2 ks with
        | .error er => .error er
        | .ok rest =>
          .ok ((nm ++ "freq", f, o2.stderr (nm ++ "freq")) ::
            (nm ++ "amp",
              (if e.fixamp then e.amp else o2.vals (nm ++ "amp")),
              o2.stderr (nm ++ "amp")) ::
            (nm ++ "phase",
              (if e.fixphase then e.phase else o2.vals (nm ++ "phase")),
              o2.stderr (nm ++ "phase")) :: rest)

/-- Value of a named fitted parameter. -/
def pval (ps : List (String × ℚ × Option ℚ)) (n : String) : ℚ :=
  ((ps.lookup n).getD (0, none)).1

/-- Standard error of a named fitted parameter. -/
def pstderr (ps : List (String × ℚ × Option ℚ)) (n : String) : Option ℚ :=
  ((ps.lookup n).getD (0, none)).2

/-- `self.values.loc[k, ...] = ...`: update every row labelled `k`. -/
def setEntry (vs : List (String × SignalEntry)) (k : String)
    (f : SignalEntry → SignalEntry) : List (String × SignalEntry) :=
  vs.map (fun kv => if kv.1 = k then (kv.1, f kv.2) else kv)

/-- Post-fit normalization of one row (Pyriod.py lines 604-610): rectify a
negative amplitude by negating it and shifting the phase half a cycle,
re-reference the phase to the unshifted time origin
(`phase += tshift*freq*freq_conversion`), and wrap with `%= 1.`
(`Int.fract` is Python's `x % 1.0`).  Returns the stored (amp, phase). -/
def rectifyRef (tshift fc freq amp phase : ℚ) : ℚ × ℚ :=
  let ap := if amp < 0 then (-amp, phase - 1/2) else (amp, phase)
  (ap.1, Int.fract (ap.2 + tshift * freq * fc))

/-- The write-back loop of `_update_values_from_fit` (lines 597-610),
processing included keys in order.  Each step writes `freq`, `freqerr`,
`amp`, `amperr`, `phase`, `phaseerr` in sequence; `float(None)` /
`None/x` raises `TypeError`, so a missing standard error aborts the loop
mid-row with everything written so far kept (in-place mutation). -/
def updVFFgo (tshift fc : ℚ) (pm : String → String)
    (ps : List (String × ℚ × Option ℚ)) :
    List String → List (String × SignalEntry) →
    List (String × SignalEntry) × Option PyErr
  | [], vs => (vs, none)
  | k :: ks, vs =>
    let nm := pm k
    let freqv := pval ps (nm ++ "freq") / fc
    let vs1 := setEntry vs k (fun e => { e with freq := freqv })
    match pstderr ps (nm ++ "freq") with
    | none => (vs1, some .typeError)
    | some sf =>
      let vs2 := setEntry vs1 k (fun e => { e with freqerr := some (sf / fc) })
      let ampv := pval ps (nm ++ "amp")
      let vs3 := setEntry vs2 k (fun e => { e with amp := ampv })
      match pstderr ps (nm ++ "amp") with
      | none => (vs3, some .typeError)
      | some sa =>
        let vs4 := setEntry vs3 k (fun e => { e with amperr := some sa })
        let phv := pval ps (nm ++ "phase")
        let vs5 := setEntry vs4 k (fun e => { e with phase := phv })
        match pstderr ps (nm ++ "phase") with
        | none => (vs5, some .typeError)
        | some sp =>
          let rp := rectifyRef tshift fc freqv ampv phv
          let vs6 := setEntry vs5 k (fun e =>
            { e with phaseerr := some sp, amp := rp.1, phase := rp.2 })
          updVFFgo tshift fc pm ps ks vs6

/-- `fit_model` (lines 526-590) followed by `_update_values_from_fit`
(lines 592-618).  `o1` is the phase-1 solver outcome (it only seeds phase 2
and does not appear in the returned parameter set); `o2` the phase-2 outcome.
With nothing included the fit is a silent no-op (line 532).  On success the
write-back ends in `_update_values_from_qgrid`, which re-runs the recompute
chain (`_update_lcs`, `_update_pers`). -/
noncomputable def fit_model (P : List ℚ → List ℝ → List ℚ → List ℚ)
    (o1 o2 : FitOutcome) (st : PyriodState) : PyriodState × Option PyErr :=
  if includedKeys st = [] then (st, none)
  else
    match mkParams st o2 (includedKeys st) with
    | .error e => (st, some e)
    | .ok ps =>
      match updVFFgo st.tshift st.freq_conversion (pmOf st) ps
          (includedKeys st) st.values with
      | (vs, some e) => ({ st with values := vs }, some e)
      | (vs, none) => (updatePers P (updateLcs { st with values := vs }), none)

/-! ### The operation alphabet and runs -/

/-- User-driven operations after construction. -/
inductive Op where
  | opAddSignal (freq : ℚ) (amp phase : Option ℚ)
      (fixfreq fixamp fixphase incl : Bool) (index : Option String)
  | opAddCombination (combostr : String) (amp phase : Option ℚ)
      (fixfreq fixamp fixphase : Bool) (index : Option String)
  | opDeleteRows (indices : List String)
  | opFitModel (o1 o2 : FitOutcome)
  | opEditFreq (key : String) (v : ℚ)
  | opUpdatePers

/-- One step of the engine (exceptions leave the state as mutated so far,
exactly as the in-place Python code does). -/
noncomputable def step (P : List ℚ → List ℝ → List ℚ → List ℚ)
    (st : PyriodState) : Op → PyriodState
  | .opAddSignal f a p ff fa fp ic idx => add_signal st f a p ff fa fp ic idx
  | .opAddCombination c a p ff fa fp idx =>
    (add_combination st c a p ff fa fp idx).1
  | .opDeleteRows ks => (delete_rows st ks).1
  | .opFitModel o1 o2 => (fit_model P o1 o2 st).1
  | .opEditFreq k v => qgrid_edit_freq P st k v
  | .opUpdatePers => updatePers P st

/-- Run a sequence of operations. -/
noncomputable def run (P : List ℚ → List ℝ → List ℚ → List ℚ)
    (ops : List Op) (st : PyriodState) : PyriodState :=
  ops.foldl (step P) st

/-! ### Concrete fixtures used by the scenario theorems below -/

/-- A minimal constructed state: empty table, unit frequency conversion,
`ppt` amplitude conversion, Nyquist 100 (the series fields play no role in
the table-level scenarios). -/
def baseSt : PyriodState :=
  { lc_orig := ⟨[], []⟩, lc_model_sampled := ⟨[], []⟩,
    lc_model_observed := ⟨[], []⟩, lc_resid := ⟨[], []⟩, tshift := 0,
    freq_conversion := 1, amp_conversion := 1000, oversample_factor := 10,
    fres := 0, nyq := 100, freqs := [], per_orig := [], per_model := [],
    per_resid := [], values := [] }

/-- A trivial periodogram estimator for closed scenario statements. -/
def P0 : List ℚ → List ℝ → List ℚ → List ℚ := fun _ _ _ => []

/-- A trivial solver outcome (used where the outcome is irrelevant). -/
def o0 : FitOutcome := ⟨fun _ => 0, fun _ => some 0, true⟩

/-- `baseSt` after `add_signal(3.0, amp=1, index="f1")`. -/
def st1 : PyriodState :=
  add_signal baseSt 3 (some 1) none false false false true (some ("f1"))

/-- `st1` after `add_signal(5.0, amp=1, index="f2")`. -/
def st2 : PyriodState :=
  add_signal st1 5 (some 1) none false false false true (some ("f2"))

/-- `st2` after `add_combination("f1+f2", amp=1)`. -/
def st3 : PyriodState :=
  (add_combination st2 ("f1+f2") (some 1) none false false false none).1

/-- `st3` after the user edits `f1`'s frequency to 3.5 in the signals table. -/
noncomputable def st4 : PyriodState := qgrid_edit_freq P0 st3 ("f1") (7/2)

/-- A phase-2 solver outcome that converges back to the table's current
frequencies `f1 = 3.5`, `f2 = 5` (with `freq_conversion = 1`). -/
def o2c : FitOutcome :=
  ⟨fun n => if n = "f1freq" then 7/2 else if n = "f2freq" then 5 else 0,
    fun _ => some 0, true⟩

/-- `st4` after `fit_model` with outcome `o2c`. -/
noncomputable def st5 : PyriodState := (fit_model P0 o0 o2c st4).1

/-- A one-row table whose entry is included with nothing fixed. -/
def stC : PyriodState :=
  { baseSt with
    values := [(("f0"), ⟨3, false, 1, false, 0, false, true, none, none, none⟩)] }

/-- A solver outcome representing a failed (non-converged) fit: lmfit then
reports no standard errors (`stderr is None`) and `success = False`. -/
def oFail : FitOutcome := ⟨fun _ => 7, fun _ => none, false⟩

/-- A one-row state with symbolic entry fields: the row `f0` is included
with a free (not user-fixed) frequency. -/
def stOne (fc f0v a0 p0 : ℚ) (fa0 fp0 : Bool) (e1 e2 e3 : Option ℚ) :
    PyriodState :=
  { baseSt with
    freq_conversion := fc
    values := [(("f0"), ⟨f0v, false, a0, fa0, p0, fp0, true, e1, e2, e3⟩)] }

/-- A solver outcome with arbitrary values, no standard errors (as lmfit
reports after a failed fit) and an arbitrary success flag. -/
def oNone (vals : String → ℚ) (b : Bool) : FitOutcome :=
  ⟨vals, fun _ => none, b⟩

/-- The operation sequence of the key-collision scenario: two auto-keyed
signals, delete the first, add another auto-keyed signal. -/
def opsCollide : List Op :=
  [.opAddSignal 1 none none false false false true none,
   .opAddSignal 2 none none false false false true none,
   .opDeleteRows [("f0")],
   .opAddSignal 3 none none false false false true none]

/-! ### Helper lemmas -/

/-- `add_combination` either raises, leaving the state alone, or delegates to
`add_signal` with the evaluated frequency, an amplitude, and the stripped
expression string as key. -/
theorem add_combination_cases (st : PyriodState) (cst : String)
    (amp phase : Option ℚ) (ff fa fp : Bool) (idx : Option String) :
    (∃ e, add_combination st cst amp phase ff fa fp idx = (st, some e)) ∨
    (∃ f am, add_combination st cst amp phase ff fa fp idx =
      (add_signal st f (some am) none false false false true
        (some (String.mk (cst.toList.filter (fun ch => ch ≠ ' ')))), none)) := by
  unfold add_combination
  cases amp with
  | none =>
    split
    · exact Or.inl ⟨_, rfl⟩
    · exact Or.inr ⟨_, _, rfl⟩
  | some am =>
    split
    · exact Or.inl ⟨_, rfl⟩
    · exact Or.inr ⟨_, _, rfl⟩

/-- `fit_model` either only rewrites the signal table (no-op, parameter
error, or aborted write-back), or ends in the full recompute chain applied
to the state with the written-back table. -/
theorem fit_model_cases (P : List ℚ → List ℝ → List ℚ → List ℚ)
    (o1 o2 : FitOutcome) (st : PyriodState) :
    (∃ vs err, fit_model P o1 o2 st = ({ st with values := vs }, err)) ∨
    (∃ vs, fit_model P o1 o2 st =
      (updatePers P (updateLcs { st with values := vs }), none)) := by
  unfold fit_model
  split
  · exact Or.inl ⟨st.values, none, rfl⟩
  · split
    · exact Or.inl ⟨st.values, some _, rfl⟩
    · split
      · exact Or.inl ⟨_, some _, rfl⟩
      · exact Or.inr ⟨_, rfl⟩

/-- `delete_rows` either raises `KeyError`, leaving the state alone, or only
rewrites the signal table. -/
theorem delete_rows_cases (st : PyriodState) (ks : List String) :
    ∃ vs err, delete_rows st ks = ({ st with values := vs }, err) := by
  unfold delete_rows
  split
  · exact ⟨_, none, rfl⟩
  · exact ⟨st.values, some .keyError, rfl⟩

/-- Every engine step either only rewrites the signal table, or ends in a
`_update_pers` recomputation of a state that shares the frame fields. -/
theorem step_shape (P : List ℚ → List ℝ → List ℚ → List ℚ)
    (st : PyriodState) (op : Op) :
    (∃ vs, step P st op = { st with values := vs }) ∨
    (∃ s, step P st op = updatePers P s ∧ s.lc_orig = st.lc_orig ∧
      s.per_orig = st.per_orig ∧ s.freqs = st.freqs ∧
      s.amp_conversion = st.amp_conversion) := by
  cases op with
  | opAddSignal f a p ff fa fp ic idx => exact Or.inl ⟨_, rfl⟩
  | opAddCombination cst a p ff fa fp idx =>
    rcases add_combination_cases st cst a p ff fa fp idx with ⟨e, he⟩ | ⟨f, am, he⟩
    · exact Or.inl ⟨st.values, by simp only [step, he]⟩
    · exact Or.inl ⟨_, by simp only [step, he]; rfl⟩
  | opDeleteRows ks =>
    rcases delete_rows_cases st ks with ⟨vs, err, he⟩
    exact Or.inl ⟨vs, by simp only [step, he]⟩
  | opFitModel o1 o2 =>
    rcases fit_model_cases P o1 o2 st with ⟨vs, err, he⟩ | ⟨vs, he⟩
    · exact Or.inl ⟨vs, by simp only [step, he]⟩
    · refine Or.inr ⟨updateLcs { st with values := vs }, by simp only [step, he], rfl, rfl, rfl, rfl⟩
  | opEditFreq k v =>
    exact Or.inr ⟨_, rfl, rfl, rfl, rfl, rfl⟩
  | opUpdatePers =>
    exact Or.inr ⟨st, rfl, rfl, rfl, rfl, rfl⟩

/-- Frame facts for one step: the original series, original periodogram,
frequency grid and amplitude conversion are untouched, and the model and
residual periodograms either keep their values or are the output of `P` on
this state's grid. -/
theorem step_frame (P : List ℚ → List ℝ → List ℚ → List ℚ)
    (st : PyriodState) (op : Op) :
    (step P st op).lc_orig = st.lc_orig ∧
    (step P st op).per_orig = st.per_orig ∧
    (step P st op).freqs = st.freqs ∧
    (step P st op).amp_conversion = st.amp_conversion ∧
    ((step P st op).per_model = st.per_model ∨
      ∃ lc : LC, (step P st op).per_model =
        (P lc.time lc.flux st.freqs).map (fun p => p * st.amp_conversion)) ∧
    ((step P st op).per_resid = st.per_resid ∨
      ∃ lc : LC, (step P st op).per_resid =
        (P lc.time lc.flux st.freqs).map (fun p => p * st.amp_conversion)) := by
  rcases step_shape P st op with ⟨vs, hv⟩ | ⟨s, hs, h1, h2, h3, h4⟩
  · rw [hv]
    exact ⟨rfl, rfl, rfl, rfl, Or.inl rfl, Or.inl rfl⟩
  · rw [hs]
    refine ⟨h1, h2, h3, h4, Or.inr ⟨s.lc_model_observed, ?_⟩,
      Or.inr ⟨s.lc_resid, ?_⟩⟩
    · show (P s.lc_model_observed.time s.lc_model_observed.flux s.freqs).map
        (fun p => p * s.amp_conversion) = _
      rw [h3, h4]
    · show (P s.lc_resid.time s.lc_resid.flux s.freqs).map
        (fun p => p * s.amp_conversion) = _
      rw [h3, h4]

/-- Removing a freshly keyed appended row restores the table. -/
theorem filter_append_fresh (vs : List (String × SignalEntry)) (k : String)
    (e : SignalEntry) (h : ∀ kv ∈ vs, kv.1 ≠ k) :
    (vs ++ [(k, e)]).filter (fun kv => !([k].any (fun i => kv.1 == i))) = vs := by
  rw [List.filter_append]
  have h1 : vs.filter (fun kv => !([k].any (fun i => kv.1 == i))) = vs := by
    apply List.filter_eq_self.mpr
    intro kv hkv
    simp only [List.any_cons, List.any_nil, Bool.or_false, Bool.not_eq_true']
    exact beq_eq_false_iff_ne.mpr (h kv hkv)
  have h2 : ([(k, e)].filter (fun kv => !([k].any (fun i => kv.1 == i)))) = [] := by
    simp
  rw [h1, h2, List.append_nil]

/-- Deleting the key of a freshly appended row restores the whole state. -/
theorem delete_rows_of_append (st : PyriodState) (k : String) (e : SignalEntry)
    (h : ∀ kv ∈ st.values, kv.1 ≠ k) :
    delete_rows { st with values := st.values ++ [(k, e)] } [k] = (st, none) := by
  unfold delete_rows
  dsimp only
  rw [if_pos]
  · rw [filter_append_fresh st.values k e h]
  · simp

/-! ### The claims -/

/-- Claim C1 (counterexample): after `add_combination("f1+f2")` over
`f1 = 3`, `f2 = 5`, editing `f1`'s frequency to 3.5 leaves the combination
entry's stored frequency at 8, not at the expression value 8.5 — so the
stored frequency does not equal the expression at all times. -/
theorem C1_counterexample :
    lookupFreq st4.values ("f1") = some (7/2) ∧
    lookupFreq st4.values ("f2") = some 5 ∧
    lookupFreq st4.values ("f1+f2") = some 8 ∧ (8 : ℚ) ≠ 7/2 + 5 := by
  decide

/-- Claim C1 (amended): the combination's stored frequency equals its
expression over the referenced entries' frequencies at creation
(`3 + 5 = 8`), and again after the next `fit_model`, whose solver links the
combination frequency to the expression: with `f1` edited to 3.5 and a fit
converging to the current frequencies, the combination is stored as 8.5
without any separate edit; between the edit and the fit it stays stale. -/
theorem C1_amended_thm :
    lookupFreq st3.values ("f1") = some 3 ∧
    lookupFreq st3.values ("f2") = some 5 ∧
    lookupFreq st3.values ("f1+f2") = some 8 ∧
    lookupFreq st5.values ("f1") = some (7/2) ∧
    lookupFreq st5.values ("f2") = some 5 ∧
    lookupFreq st5.values ("f1+f2") = some (17/2) := by
  decide

/-- Claim C2 (counterexample): `add_signal` accepts the non-positive
frequency −1 and mutates the table (no `InvalidFrequency` rejection). -/
theorem C2_counterexample :
    (add_signal baseSt (-1) none none false false false true none).values ≠
      baseSt.values := by
  decide

/-- Claim C2 (amended): `add_signal` performs no frequency validation at
all: even for a non-positive `freq` the call succeeds (it cannot raise) and
appends the new row unconditionally. -/
theorem C2_amended_thm (st : PyriodState) (freq : ℚ) (amp phase : Option ℚ)
    (fixfreq fixamp fixphase incl : Bool) (index : Option String)
    (hfreq : freq ≤ 0) :
    (add_signal st freq amp phase fixfreq fixamp fixphase incl index).values =
      st.values ++ [(index.getD ("f" ++ toString st.values.length),
        { freq := freq, fixfreq := fixfreq,
          amp := amp.getD 1 / st.amp_conversion, fixamp := fixamp,
          phase := phase.getD (1/2), fixphase := fixphase, incl := incl })] :=
  rfl

/-- Witness for C2: the amended theorem applied at `freq = −1` on `baseSt`. -/
theorem C2_witness :
    (-1 : ℚ) ≤ 0 ∧
    (add_signal baseSt (-1) none none false false false true none).values =
      baseSt.values ++ [((none : Option String).getD
          ("f" ++ toString baseSt.values.length),
        { freq := -1, fixfreq := false,
          amp := (none : Option ℚ).getD 1 / baseSt.amp_conversion,
          fixamp := false, phase := (none : Option ℚ).getD (1/2),
          fixphase := false, incl := true })] :=
  ⟨by norm_num, C2_amended_thm baseSt (-1) none none false false false true none
    (by norm_num)⟩

/-- Claim C4 (code bug): the auto key is `f{len(table)}`, not the next unused
`f<N>` label (the source's own TODO at line 493 records the intent).  After
add, add, delete `f0`, add, the new row receives the key `f1`, which is
already in use: the table ends with two rows keyed `f1`, breaking key
uniqueness. -/
theorem C4_code_bug_thm :
    (run P0 opsCollide baseSt).values.map Prod.fst = [("f1"), ("f1")] ∧
    ¬ ((run P0 opsCollide baseSt).values.map Prod.fst).Nodup := by
  decide

/-- Claim C5 (counterexample): on a solver outcome that reports failure
(`success = False`, no standard errors), `fit_model` does not leave the
table unchanged and raises `TypeError` instead of a `FitConvergenceError`:
the included entry's frequency has already been overwritten with the failed
solver value. -/
theorem C5_counterexample :
    (fit_model P0 o0 oFail stC).1.values ≠ stC.values ∧
    (fit_model P0 o0 oFail stC).2 = some .typeError ∧
    lookupFreq (fit_model P0 o0 oFail stC).1.values ("f0") = some 7 := by
  decide

/-- Claim C5 (amended): `fit_model` never checks convergence — its result is
the same whatever the solver's success flag says — and commits fitted values
unconditionally.  When the (failed) fit reports no standard errors, the
write-back raises `TypeError` after already storing the entry's fitted
frequency: the table is left partially updated, not restored. -/
theorem C5_amended_thm (P : List ℚ → List ℝ → List ℚ → List ℚ)
    (o1 : FitOutcome) (vals : String → ℚ) (fc f0v a0 p0 : ℚ)
    (fa0 fp0 b1 b2 : Bool) (e1 e2 e3 : Option ℚ) :
    (fit_model P o1 (oNone vals b1)
        (stOne fc f0v a0 p0 fa0 fp0 e1 e2 e3)).1.values =
      [(("f0"), ⟨vals ("f0freq") / fc, false, a0, fa0, p0, fp0, true, e1, e2, e3⟩)] ∧
    (fit_model P o1 (oNone vals b1)
        (stOne fc f0v a0 p0 fa0 fp0 e1 e2 e3)).2 = some .typeError ∧
    fit_model P o1 (oNone vals b1) (stOne fc f0v a0 p0 fa0 fp0 e1 e2 e3) =
      fit_model P o1 (oNone vals b2) (stOne fc f0v a0 p0 fa0 fp0 e1 e2 e3) :=
  ⟨rfl, rfl, rfl⟩

/-- Claim C8 (counterexample): in a table that already holds a row keyed
`f1`, a fresh `add_signal` is auto-keyed `f1` as well (`f{len}`), and
deleting that key removes BOTH rows: the round trip empties the table
instead of restoring the one-row state. -/
theorem C8_counterexample :
    (add_signal st1 2 none none false false false true none).values.map Prod.fst
      = [("f1"), ("f1")] ∧
    (delete_rows (add_signal st1 2 none none false false false true none)
      [("f1")]).1.values = [] ∧
    st1.values ≠ [] := by
  decide

/-- Claim C8 (amended): whenever the key the new row receives is not already
present in the table, `add_signal` followed by `delete_rows` of that key
restores the entire prior state. -/
theorem C8_amended_thm (st : PyriodState) (freq : ℚ) (amp phase : Option ℚ)
    (fixfreq fixamp fixphase incl : Bool) (index : Option String)
    (h : index.getD ("f" ++ toString st.values.length) ∉ st.values.map Prod.fst) :
    delete_rows (add_signal st freq amp phase fixfreq fixamp fixphase incl index)
      [index.getD ("f" ++ toString st.values.length)] = (st, none) := by
  have hne : ∀ kv ∈ st.values,
      kv.1 ≠ index.getD ("f" ++ toString st.values.length) := by
    intro kv hkv he
    exact h (he ▸ List.mem_map_of_mem Prod.fst hkv)
  exact delete_rows_of_append st _ _ hne

/-- Witness for C8: the amended theorem applied on the empty table. -/
theorem C8_witness :
    ((none : Option String).getD ("f" ++ toString baseSt.values.length) ∉
      baseSt.values.map Prod.fst) ∧
    delete_rows (add_signal baseSt 1 none none false false false true none)
      [(none : Option String).getD ("f" ++ toString baseSt.values.length)] =
      (baseSt, none) :=
  ⟨by decide, C8_amended_thm baseSt 1 none none false false false true none
    (by decide)⟩

/-- Claim C10: the `phase`, `fixfreq`, `fixamp`, `fixphase` (and `index`)
arguments of `add_combination` have no effect — the call forwards only the
evaluated frequency, the amplitude and the expression key to `add_signal` —
so a successful call always appends an entry with phase 0.5, all three fixed
flags false and include true. -/
theorem C10_thm (st : PyriodState) (combostr : String) (amp phase : Option ℚ)
    (fixfreq fixamp fixphase : Bool) (index : Option String)
    (h : (add_combination st combostr amp phase fixfreq fixamp fixphase index).2
      = none) :
    add_combination st combostr amp phase fixfreq fixamp fixphase index =
      add_combination st combostr amp none false false false none ∧
    ∃ f a, (add_combination st combostr amp phase fixfreq fixamp fixphase
        index).1.values =
      st.values ++ [(String.mk (combostr.toList.filter (fun c => c ≠ ' ')),
        { freq := f, fixfreq := false, amp := a, fixamp := false, phase := 1/2,
          fixphase := false, incl := true })] := by
  refine ⟨rfl, ?_⟩
  rcases add_combination_cases st combostr amp phase fixfreq fixamp fixphase index
    with ⟨e, he⟩ | ⟨f, am, he⟩
  · rw [he] at h
    simp at h
  · rw [he]
    exact ⟨f, am / st.amp_conversion, rfl⟩

/-- Witness for C10: a successful `add_combination("f1*2", amp=2, phase=9,
fixfreq=True, fixamp=True, fixphase=True, index="zzz")` still creates the
default-flag entry. -/
theorem C10_witness :
    (add_combination st1 ("f1*2") (some 2) (some 9) true true true
      (some ("zzz"))).2 = none ∧
    (add_combination st1 ("f1*2") (some 2) (some 9) true true true
        (some ("zzz")) =
      add_combination st1 ("f1*2") (some 2) none false false false none ∧
    ∃ f a, (add_combination st1 ("f1*2") (some 2) (some 9) true true true
        (some ("zzz"))).1.values =
      st1.values ++ [(String.mk (("f1*2").toList.filter (fun c => c ≠ ' ')),
        { freq := f, fixfreq := false, amp := a, fixamp := false, phase := 1/2,
          fixphase := false, incl := true })]) :=
  ⟨by decide, C10_thm st1 ("f1*2") (some 2) (some 9) true true true
    (some ("zzz")) (by decide)⟩

/-- Element formula of `np.arange`. -/
theorem arangeQ_getElem (a b s : ℚ) (i : ℕ) (hi : i < (arangeQ a b s).length) :
    (arangeQ a b s)[i] = a + i * s := by
  unfold arangeQ at hi ⊢
  simp only [List.getElem_map, List.getElem_range]

/-- Membership characterization of `np.arange`. -/
theorem arangeQ_mem_iff (a b s x : ℚ) :
    x ∈ arangeQ a b s ↔
      ∃ i : ℕ, i < Int.toNat ⌈(b - a) / s⌉ ∧ x = a + i * s := by
  unfold arangeQ
  simp only [List.mem_map, List.mem_range]
  constructor
  · rintro ⟨i, hi, rfl⟩
    exact ⟨i, hi, rfl⟩
  · rintro ⟨i, hi, rfl⟩
    exact ⟨i, hi, rfl⟩

/-- On a strictly increasing list the head is below the last element. -/
theorem chain_lt_getLastD (t : List ℚ) : ∀ (a b d : ℚ),
    List.Chain' (fun x y => x < y) (a :: b :: t) → a < (a :: b :: t).getLastD d := by
  induction t with
  | nil =>
    intro a b d h
    exact (List.chain'_cons.mp h).1
  | cons c t ih =>
    intro a b d h
    have h1 := List.chain'_cons.mp h
    calc a < b := h1.1
    _ < (b :: c :: t).getLastD a := ih b c a h1.2

/-- Claim C7: grid construction is the deterministic function of the series
and the oversample factor given by `fresOf`, `dtOf`, `nyqOf`, `freqsOf`:
`fres = 1/(last − first)`, `dt = median(diff(time))`,
`nyq = 1/(2·dt·freq_conversion)`, and the grid is exactly the arithmetic
sequence `i · fres/osf` for `0 ≤ i·fres/osf < nyq + fres/osf`. -/
theorem C7_thm (time : List ℚ) (fc : ℚ) (osf : ℕ)
    (h2 : 2 ≤ time.length) (hmono : List.Chain' (fun x y => x < y) time)
    (hosf : 1 ≤ osf) :
    fresOf time = 1 / (time.getLastD 0 - time.headD 0) ∧
    dtOf time = medianQ (diffsQ time) ∧
    nyqOf time fc = 1 / (2 * dtOf time * fc) ∧
    0 < fresOf time / (osf : ℚ) ∧
    (∀ i : ℕ, ∀ hi : i < (freqsOf time fc osf).length,
      (freqsOf time fc osf)[i] = i * (fresOf time / osf)) ∧
    (∀ x ∈ freqsOf time fc osf,
      0 ≤ x ∧ x < nyqOf time fc + fresOf time / osf) ∧
    (∀ i : ℕ,
      (i : ℚ) * (fresOf time / osf) < nyqOf time fc + fresOf time / osf →
      (i : ℚ) * (fresOf time / osf) ∈ freqsOf time fc osf) := by
  have hspan : time.headD 0 < time.getLastD 0 := by
    match time, h2 with
    | a :: b :: t, _ => exact chain_lt_getLastD t a b 0 hmono
  have hfres : 0 < fresOf time := by
    unfold fresOf
    have : 0 < time.getLastD 0 - time.headD 0 := sub_pos.mpr hspan
    positivity
  have hosf0 : 0 < (osf : ℚ) := by
    have : 0 < osf := hosf
    exact_mod_cast this
  have hstep : 0 < fresOf time / (osf : ℚ) := div_pos hfres hosf0
  refine ⟨rfl, rfl, rfl, hstep, ?_, ?_, ?_⟩
  · intro i hi
    unfold freqsOf at hi ⊢
    rw [arangeQ_getElem _ _ _ i hi, zero_add]
  · intro x hx
    unfold freqsOf at hx
    rcases (arangeQ_mem_iff _ _ _ x).mp hx with ⟨i, hi, rfl⟩
    have hnn : (0 : ℚ) ≤ (i : ℚ) * (fresOf time / osf) :=
      mul_nonneg (by positivity) hstep.le
    constructor
    · linarith
    · have h1 : ((i : ℤ) : ℚ) < (nyqOf time fc + fresOf time / osf - 0) /
          (fresOf time / osf) := by
        exact_mod_cast Int.lt_ceil.mp (Int.lt_toNat.mp hi)
      have h2 : (i : ℚ) * (fresOf time / osf) <
          nyqOf time fc + fresOf time / osf - 0 := by
        have := (lt_div_iff₀ hstep).mp (by exact_mod_cast h1)
        linarith
      linarith
  · intro i hlt
    unfold freqsOf
    rw [arangeQ_mem_iff]
    refine ⟨i, ?_, by rw [zero_add]⟩
    have h1 : (i : ℚ) < (nyqOf time fc + fresOf time / osf - 0) /
        (fresOf time / osf) := by
      rw [sub_zero]
      exact (lt_div_iff₀ hstep).mpr hlt
    apply Int.lt_toNat.mpr
    apply Int.lt_ceil.mpr
    exact_mod_cast h1

/-- Witness for C7: the grid data of the series `[0, 1, 3]` with unit
conversion and oversample factor 1. -/
theorem C7_witness :
    (2 ≤ ([0, 1, 3] : List ℚ).length ∧
      List.Chain' (fun x y => x < y) ([0, 1, 3] : List ℚ) ∧ 1 ≤ 1) ∧
    (fresOf [0, 1, 3] = 1 / (([0, 1, 3] : List ℚ).getLastD 0 -
        ([0, 1, 3] : List ℚ).headD 0) ∧
    dtOf [0, 1, 3] = medianQ (diffsQ [0, 1, 3]) ∧
    nyqOf [0, 1, 3] 1 = 1 / (2 * dtOf [0, 1, 3] * 1) ∧
    0 < fresOf [0, 1, 3] / ((1 : ℕ) : ℚ) ∧
    (∀ i : ℕ, ∀ hi : i < (freqsOf [0, 1, 3] 1 1).length,
      (freqsOf [0, 1, 3] 1 1)[i] = i * (fresOf [0, 1, 3] / (1 : ℕ))) ∧
    (∀ x ∈ freqsOf [0, 1, 3] 1 1,
      0 ≤ x ∧ x < nyqOf [0, 1, 3] 1 + fresOf [0, 1, 3] / (1 : ℕ)) ∧
    (∀ i : ℕ,
      (i : ℚ) * (fresOf [0, 1, 3] / (1 : ℕ)) <
        nyqOf [0, 1, 3] 1 + fresOf [0, 1, 3] / (1 : ℕ) →
      (i : ℚ) * (fresOf [0, 1, 3] / (1 : ℕ)) ∈ freqsOf [0, 1, 3] 1 1)) :=
  ⟨⟨by decide, by norm_num [List.chain'_cons], by decide⟩,
    C7_thm [0, 1, 3] 1 1 (by decide) (by norm_num [List.chain'_cons])
      (by decide)⟩

/-- Claim C6: post-fit rectification of a negative fitted amplitude `−A`
with phase `p` stores amplitude `A` and phase `(p + 0.5) mod 1` after the
time-origin re-referencing term `tshift·freq·freq_conversion` is added; the
stored amplitude is non-negative and the stored phase lies in `[0, 1)`; and
the rectified parameterization `(A, p + 0.5)` produces model samples
identical to the original `(−A, p)` at every sample time. -/
theorem C6_thm (A p freq tshift fc : ℚ) (hA : 0 < A) :
    rectifyRef tshift fc freq (-A) p =
      (A, Int.fract (p + 1/2 + tshift * freq * fc)) ∧
    0 ≤ (rectifyRef tshift fc freq (-A) p).1 ∧
    0 ≤ (rectifyRef tshift fc freq (-A) p).2 ∧
    (rectifyRef tshift fc freq (-A) p).2 < 1 ∧
    ∀ x : ℝ, sin x (freq : ℝ) ((-A : ℚ) : ℝ) (p : ℝ) =
      sin x (freq : ℝ) (A : ℝ) ((p : ℝ) + 1/2) := by
  have hneg : (-A : ℚ) < 0 := neg_neg_iff_pos.mpr hA
  have h1 : rectifyRef tshift fc freq (-A) p =
      (A, Int.fract (p - 1/2 + tshift * freq * fc)) := by
    simp [rectifyRef, hneg]
  have h2 : Int.fract (p - 1/2 + tshift * freq * fc) =
      Int.fract (p + 1/2 + tshift * freq * fc) := by
    have he : p + 1/2 + tshift * freq * fc =
        p - 1/2 + tshift * freq * fc + ((1 : ℤ) : ℚ) := by
      push_cast
      ring
    rw [he, Int.fract_add_int]
  refine ⟨by rw [h1, h2], ?_, ?_, ?_, ?_⟩
  · rw [h1]
    exact hA.le
  · rw [h1]
    exact Int.fract_nonneg _
  · rw [h1]
    exact Int.fract_lt_one _
  · intro x
    unfold sin
    push_cast
    have harg : 2 * Real.pi * ((freq : ℝ) * x + ((p : ℝ) + 1/2)) =
        2 * Real.pi * ((freq : ℝ) * x + (p : ℝ)) + Real.pi := by
      ring
    rw [harg, Real.sin_add_pi]
    ring

/-- Witness for C6: rectification of the outcome `(−1, 0)` for a signal of
frequency 2 with `tshift = 0`, `freq_conversion = 1`. -/
theorem C6_witness :
    (0 : ℚ) < 1 ∧
    (rectifyRef 0 1 2 (-1) 0 =
      (1, Int.fract ((0 : ℚ) + 1/2 + 0 * 2 * 1)) ∧
    0 ≤ (rectifyRef 0 1 2 (-1) 0).1 ∧
    0 ≤ (rectifyRef 0 1 2 (-1) 0).2 ∧
    (rectifyRef 0 1 2 (-1) 0).2 < 1 ∧
    ∀ x : ℝ, sin x ((2 : ℚ) : ℝ) ((-(1 : ℚ) : ℚ) : ℝ) ((0 : ℚ) : ℝ) =
      sin x ((2 : ℚ) : ℝ) ((1 : ℚ) : ℝ) (((0 : ℚ) : ℝ) + 1/2)) :=
  ⟨by norm_num, C6_thm 1 0 2 0 1 (by norm_num)⟩

/-- Claim C9: over every sequence of operations after construction, the
original series and the original-series periodogram are never modified, the
frequency grid and amplitude conversion stay as built at initialization, and
the model/residual periodograms either keep their values or are recomputed
by the periodogram estimator on exactly that original grid. -/
theorem C9_thm (P : List ℚ → List ℝ → List ℚ → List ℚ) (ops : List Op)
    (st0 : PyriodState) :
    (run P ops st0).lc_orig = st0.lc_orig ∧
    (run P ops st0).per_orig = st0.per_orig ∧
    (run P ops st0).freqs = st0.freqs ∧
    (run P ops st0).amp_conversion = st0.amp_conversion ∧
    ((run P ops st0).per_model = st0.per_model ∨
      ∃ lc : LC, (run P ops st0).per_model =
        (P lc.time lc.flux st0.freqs).map (fun p => p * st0.amp_conversion)) ∧
    ((run P ops st0).per_resid = st0.per_resid ∨
      ∃ lc : LC, (run P ops st0).per_resid =
        (P lc.time lc.flux st0.freqs).map (fun p => p * st0.amp_conversion)) := by
  induction ops generalizing st0 with
  | nil => exact ⟨rfl, rfl, rfl, rfl, Or.inl rfl, Or.inl rfl⟩
  | cons op ops ih =>
    have hstep := step_frame P st0 op
    obtain ⟨s1, s2, s3, s4, s5, s6⟩ := hstep
    obtain ⟨g1, g2, g3, g4, g5, g6⟩ := ih (step P st0 op)
    have hrun : run P (op :: ops) st0 = run P ops (step P st0 op) := rfl
    rw [hrun, g3, g4] at *
    refine ⟨by rw [g1, s1], by rw [g2, s2], by rw [g3, s3], by rw [g4, s4],
      ?_, ?_⟩
    · rcases g5 with g5 | ⟨lc, hlc⟩
      · rw [g5]
        rcases s5 with s5 | ⟨lc, hlc⟩
        · exact Or.inl s5
        · exact Or.inr ⟨lc, hlc⟩
      · rw [s3, s4] at hlc
        exact Or.inr ⟨lc, hlc⟩
    · rcases g6 with g6 | ⟨lc, hlc⟩
      · rw [g6]
        rcases s6 with s6 | ⟨lc, hlc⟩
        · exact Or.inl s6
        · exact Or.inr ⟨lc, hlc⟩
      · rw [s3, s4] at hlc
        exact Or.inr ⟨lc, hlc⟩
